import Mathlib

/-!
Shallow embedding of `src/alarm_sales_app.py` (LarmSaleCalc).

Python floats are modelled as exact rationals (`ℚ`); the arithmetic in the
app (divisions by small integer terms, additions, multiplications by decimal
constants with small denominators) is exactly representable, so the rational
model coincides with the float computation on the inputs considered here.
Python `max(..., key=...)` / `min(..., key=...)` return the first extremal
element, which `maxByFirst` / `minByFirst` reproduce; Python `list.sort` is
a stable sort, modelled by `List.mergeSort`.
-/

namespace AlarmSales

/-- Paketpris 70+. -/
def BASE_OVER_70 : ℚ := 30990

/-- Paketpris under 70. -/
def BASE_UNDER_70 : ℚ := 32400

def EXTRA_MAGNET : ℚ := 1000

def EXTRA_CAMERA : ℚ := 2200

def EXTRA_FIRE : ℚ := 2000

/-- engångsavgift -/
def START_FEE : ℚ := 594

/-- per månad -/
def ADMIN_MONTHLY : ℚ := 49

/-- bakas in i månadsbetalningen -/
def INSTALLATION_COST : ℚ := 5000

/-- The static `(label, term-months)` configuration list. -/
def PAYMENT_OPTIONS : List (String × ℕ) :=
  [("90 dagar (3 mån)", 3),
   ("12 månader", 12),
   ("24 månader", 24),
   ("36 månader", 36),
   ("60 månader", 60),
   ("72 månader", 72),
   ("120 månader", 120)]

/-- Startpaket provision. -/
def BASE_COMMISSION_PER_DEAL : ℚ := 2500

/-- 20% av installationskostnaden. -/
def INSTALL_COMMISSION_RATE : ℚ := 0.20

/-- 10% på merförsäljning. -/
def UPSELL_COMMISSION_RATE : ℚ := 0.10

/-- -20% på total provision vid kundkompensation. -/
def COMPENSATION_PENALTY_RATE : ℚ := 0.20

/-- kr/mil. -/
def MILE_COMP : ℚ := 25.50

/-- The plan dictionary built by `compute_plans`. -/
structure Plan where
  label : String
  months : ℕ
  monthly : ℚ
  total : ℚ
deriving DecidableEq

/-- `compute_plans`: one plan per entry of `PAYMENT_OPTIONS`. -/
def compute_plans (financed_amount : ℚ) : List Plan :=
  PAYMENT_OPTIONS.map (fun lm =>
    let monthly_fin := financed_amount / (lm.2 : ℚ)
    let monthly_total := monthly_fin + ADMIN_MONTHLY
    { label := lm.1
      months := lm.2
      monthly := monthly_total
      total := monthly_total * (lm.2 : ℚ) + START_FEE })

/-- Python `max(l, key)` : first element attaining the maximal key. -/
def maxByFirst (key : Plan → ℚ) : List Plan → Option Plan
  | [] => none
  | p :: ps => some (ps.foldl (fun acc q => if key acc < key q then q else acc) p)

/-- Python `min(l, key)` : first element attaining the minimal key. -/
def minByFirst (key : Plan → ℚ) : List Plan → Option Plan
  | [] => none
  | p :: ps => some (ps.foldl (fun acc q => if key q < key acc then q else acc) p)

/-- `choose_best_plan_for_budget` (`none` only on an empty plan list, where
the Python code would raise). -/
def choose_best_plan_for_budget (plans : List Plan) (target_monthly : ℚ) :
    Option (Plan × String) :=
  let under_or_equal := plans.filter (fun p => decide (p.monthly ≤ target_monthly))
  match maxByFirst (fun p => p.monthly) under_or_equal with
  | some best => some (best, "within")
  | none => (minByFirst (fun p => p.monthly) plans).map (fun best => (best, "above"))

/-- The two-key sort order of `choose_discount_plan_to_match_price`:
`(p.months, |p.monthly - target|)` compared lexicographically. -/
def discLe (target : ℚ) (p q : Plan) : Bool :=
  decide (p.months < q.months) ||
    (decide (p.months = q.months) &&
      decide (|p.monthly - target| ≤ |q.monthly - target|))

/-- `choose_discount_plan_to_match_price` (`none` only on an empty plan
list, where the Python code would raise). -/
def choose_discount_plan_to_match_price (plans : List Plan)
    (target_monthly tolerance : ℚ) : Option (Plan × Bool) :=
  let lower := target_monthly - tolerance
  let upper := target_monthly + tolerance
  let candidates := plans.filter
    (fun p => decide (lower ≤ p.monthly) && decide (p.monthly ≤ upper))
  match candidates with
  | [] =>
      (minByFirst (fun p => |p.monthly - target_monthly|) plans).map
        (fun nearest => (nearest, false))
  | c :: cs =>
      match (c :: cs).mergeSort (discLe target_monthly) with
      | [] => none
      | s :: _ => some (s, true)

/-- `bonus_for_net_sales`. -/
def bonus_for_net_sales (net_sales : ℤ) : ℤ :=
  if net_sales ≥ 50 then 50000
  else if net_sales ≥ 40 then 40000
  else if net_sales ≥ 30 then 30000
  else if net_sales ≥ 20 then 15000
  else if net_sales ≥ 15 then 10000
  else if net_sales ≥ 10 then 5000
  else 0

/-- The sidebar inputs feeding the top-level script: extras counts, the
"Bjud på ALLA ..." checkboxes, age bracket, desired monthly amount,
tolerance and distance driven. -/
structure Inputs where
  magnet_count : ℕ
  camera_count : ℕ
  fire_count : ℕ
  bjud_magnet : Bool
  bjud_camera : Bool
  bjud_fire : Bool
  is_over_70 : Bool
  desired_monthly : ℚ
  tolerance : ℚ
  miles_driven : ℚ

/-- `charged_magnet = magnet_count > 0 and not checkbox`. -/
def charged_magnet (i : Inputs) : Bool :=
  decide (0 < i.magnet_count) && !i.bjud_magnet

/-- `charged_camera = camera_count > 0 and not checkbox`. -/
def charged_camera (i : Inputs) : Bool :=
  decide (0 < i.camera_count) && !i.bjud_camera

/-- `charged_fire = fire_count > 0 and not checkbox`. -/
def charged_fire (i : Inputs) : Bool :=
  decide (0 < i.fire_count) && !i.bjud_fire

def base_price (i : Inputs) : ℚ :=
  if i.is_over_70 then BASE_OVER_70 else BASE_UNDER_70

/-- Full value of all selected extras. -/
def extras_total_full (i : Inputs) : ℚ :=
  (i.magnet_count : ℚ) * EXTRA_MAGNET + (i.camera_count : ℚ) * EXTRA_CAMERA
    + (i.fire_count : ℚ) * EXTRA_FIRE

/-- Value of the extras that are actually charged (the expression shared by
`extras_charged`, `extras_charged_final` and `extras_charged_final_for_text`
in the script). -/
def extras_charged_final (i : Inputs) : ℚ :=
  (if charged_magnet i then (i.magnet_count : ℚ) * EXTRA_MAGNET else 0)
    + (if charged_camera i then (i.camera_count : ℚ) * EXTRA_CAMERA else 0)
    + (if charged_fire i then (i.fire_count : ℚ) * EXTRA_FIRE else 0)

/-- Financed amount of the standard offer. -/
def financed_full (i : Inputs) : ℚ :=
  base_price i + extras_total_full i + INSTALLATION_COST

/-- Financed amount of the discounted offer. -/
def financed_discount (i : Inputs) : ℚ :=
  base_price i + extras_charged_final i + INSTALLATION_COST

/-- The guard of the `Rabatterat erbjudande` branch:
`(magnet_count or camera_count or fire_count) and
 (not charged_magnet or not charged_camera or not charged_fire)`. -/
def discount_branch (i : Inputs) : Bool :=
  (decide (0 < i.magnet_count) || decide (0 < i.camera_count)
      || decide (0 < i.fire_count))
    && (!charged_magnet i || !charged_camera i || !charged_fire i)

/-- `discount_plan`: `None` unless the discount branch runs, in which case it
is the plan chosen by `choose_discount_plan_to_match_price` over the plans
for the discounted financed amount. -/
def discount_plan (i : Inputs) : Option Plan :=
  if discount_branch i then
    (choose_discount_plan_to_match_price (compute_plans (financed_discount i))
        i.desired_monthly i.tolerance).map Prod.fst
  else
    none

def base_comm : ℚ := BASE_COMMISSION_PER_DEAL

def upsell_comm (i : Inputs) : ℚ :=
  extras_charged_final i * UPSELL_COMMISSION_RATE

def install_comm : ℚ := INSTALLATION_COST * INSTALL_COMMISSION_RATE

def total_before_comp (i : Inputs) : ℚ :=
  base_comm + upsell_comm i + install_comm

/-- `has_comp`: `(magnet_count and not charged_magnet) or ... or
(discount_plan is not None)`. -/
def has_comp (i : Inputs) : Bool :=
  (decide (0 < i.magnet_count) && !charged_magnet i)
    || (decide (0 < i.camera_count) && !charged_camera i)
    || (decide (0 < i.fire_count) && !charged_fire i)
    || (discount_plan i).isSome

def total_after_comp (i : Inputs) : ℚ :=
  if has_comp i then total_before_comp i * (1 - COMPENSATION_PENALTY_RATE)
  else total_before_comp i

def mile_comp_total (i : Inputs) : ℚ := i.miles_driven * MILE_COMP

/-- `total_after_comp + mile_comp_total`: the displayed
"Total ersättning för denna affär inkl milersättning". -/
def total_with_mileage (i : Inputs) : ℚ :=
  total_after_comp i + mile_comp_total i

/-- Claim-side predicate: some selected extra (positive count) is comped,
i.e. its charged flag is off. -/
def someExtraComped (i : Inputs) : Prop :=
  (0 < i.magnet_count ∧ charged_magnet i = false)
    ∨ (0 < i.camera_count ∧ charged_camera i = false)
    ∨ (0 < i.fire_count ∧ charged_fire i = false)

/-- Claim-side predicate: every extra with a positive count is billed. -/
def allPositiveExtrasBilled (i : Inputs) : Prop :=
  (0 < i.magnet_count → charged_magnet i = true)
    ∧ (0 < i.camera_count → charged_camera i = true)
    ∧ (0 < i.fire_count → charged_fire i = true)

/-! ### Helper lemmas about the first-extremum folds -/

lemma foldl_max_mem (key : Plan → ℚ) (p : Plan) (ps : List Plan) :
    ps.foldl (fun acc q => if key acc < key q then q else acc) p ∈ p :: ps := by
  induction ps generalizing p with
  | nil => simp
  | cons q qs ih =>
    rw [List.foldl_cons]
    rcases List.mem_cons.mp (ih (if key p < key q then q else p)) with h1 | h1
    · rw [h1]
      split
      · exact List.mem_cons_of_mem _ (List.mem_cons_self _ _)
      · exact List.mem_cons_self _ _
    · exact List.mem_cons_of_mem _ (List.mem_cons_of_mem _ h1)

lemma foldl_max_ge (key : Plan → ℚ) (p : Plan) (ps : List Plan) :
    ∀ r ∈ p :: ps,
      key r ≤ key (ps.foldl (fun acc q => if key acc < key q then q else acc) p) := by
  induction ps generalizing p with
  | nil =>
    intro r hr
    rw [List.mem_singleton] at hr
    rw [hr, List.foldl_nil]
  | cons q qs ih =>
    intro r hr
    rw [List.foldl_cons]
    have hp : key p ≤ key (if key p < key q then q else p) := by
      split
      · exact le_of_lt (by assumption)
      · exact le_refl _
    have hq : key q ≤ key (if key p < key q then q else p) := by
      split
      · exact le_refl _
      · exact le_of_not_lt (by assumption)
    have hhead := ih (if key p < key q then q else p) _ (List.mem_cons_self _ _)
    rcases List.mem_cons.mp hr with h1 | h1
    · rw [h1]; exact le_trans hp hhead
    rcases List.mem_cons.mp h1 with h2 | h2
    · rw [h2]; exact le_trans hq hhead
    · exact ih _ r (List.mem_cons_of_mem _ h2)

lemma foldl_min_mem (key : Plan → ℚ) (p : Plan) (ps : List Plan) :
    ps.foldl (fun acc q => if key q < key acc then q else acc) p ∈ p :: ps := by
  induction ps generalizing p with
  | nil => simp
  | cons q qs ih =>
    rw [List.foldl_cons]
    rcases List.mem_cons.mp (ih (if key q < key p then q else p)) with h1 | h1
    · rw [h1]
      split
      · exact List.mem_cons_of_mem _ (List.mem_cons_self _ _)
      · exact List.mem_cons_self _ _
    · exact List.mem_cons_of_mem _ (List.mem_cons_of_mem _ h1)

lemma foldl_min_le (key : Plan → ℚ) (p : Plan) (ps : List Plan) :
    ∀ r ∈ p :: ps,
      key (ps.foldl (fun acc q => if key q < key acc then q else acc) p) ≤ key r := by
  induction ps generalizing p with
  | nil =>
    intro r hr
    rw [List.mem_singleton] at hr
    rw [hr, List.foldl_nil]
  | cons q qs ih =>
    intro r hr
    rw [List.foldl_cons]
    have hp : key (if key q < key p then q else p) ≤ key p := by
      split
      · exact le_of_lt (by assumption)
      · exact le_refl _
    have hq : key (if key q < key p then q else p) ≤ key q := by
      split
      · exact le_refl _
      · exact le_of_not_lt (by assumption)
    have hhead := ih (if key q < key p then q else p) _ (List.mem_cons_self _ _)
    rcases List.mem_cons.mp hr with h1 | h1
    · rw [h1]; exact le_trans hhead hp
    rcases List.mem_cons.mp h1 with h2 | h2
    · rw [h2]; exact le_trans hhead hq
    · exact ih _ r (List.mem_cons_of_mem _ h2)

lemma maxByFirst_spec (key : Plan → ℚ) (l : List Plan) (h : l ≠ []) :
    ∃ b, maxByFirst key l = some b ∧ b ∈ l ∧ ∀ r ∈ l, key r ≤ key b := by
  match l with
  | [] => exact absurd rfl h
  | p :: ps => exact ⟨_, rfl, foldl_max_mem key p ps, foldl_max_ge key p ps⟩

lemma minByFirst_spec (key : Plan → ℚ) (l : List Plan) (h : l ≠ []) :
    ∃ b, minByFirst key l = some b ∧ b ∈ l ∧ ∀ r ∈ l, key b ≤ key r := by
  match l with
  | [] => exact absurd rfl h
  | p :: ps => exact ⟨_, rfl, foldl_min_mem key p ps, foldl_min_le key p ps⟩

/-! ### C2: budget matcher -/

/-- C2: for every plan list and budget, if some plan's monthly is within the
budget then `choose_best_plan_for_budget` returns, with status `"within"`, a
plan whose monthly is within budget and maximal among such plans; otherwise
it returns, with status `"above"`, a plan of globally minimal monthly. -/
theorem choose_best_plan_for_budget_correct (plans : List Plan) (t : ℚ)
    (hne : plans ≠ []) :
    ((∃ p ∈ plans, p.monthly ≤ t) →
      ∃ best, choose_best_plan_for_budget plans t = some (best, "within") ∧
        best ∈ plans ∧ best.monthly ≤ t ∧
        ∀ q ∈ plans, q.monthly ≤ t → q.monthly ≤ best.monthly) ∧
    ((∀ p ∈ plans, t < p.monthly) →
      ∃ best, choose_best_plan_for_budget plans t = some (best, "above") ∧
        best ∈ plans ∧ ∀ q ∈ plans, best.monthly ≤ q.monthly) := by
  constructor
  · rintro ⟨p, hp, hple⟩
    have hpf : p ∈ plans.filter (fun p => decide (p.monthly ≤ t)) :=
      List.mem_filter.mpr ⟨hp, by simpa using hple⟩
    have hfne : plans.filter (fun p => decide (p.monthly ≤ t)) ≠ [] :=
      List.ne_nil_of_mem hpf
    obtain ⟨b, heq, hbmem, hbmax⟩ := maxByFirst_spec (fun p => p.monthly) _ hfne
    refine ⟨b, ?_, (List.mem_filter.mp hbmem).1,
      by simpa using (List.mem_filter.mp hbmem).2, ?_⟩
    · simp only [choose_best_plan_for_budget]
      rw [heq]
    · intro q hq hqle
      exact hbmax q (List.mem_filter.mpr ⟨hq, by simpa using hqle⟩)
  · intro hall
    have hfe : plans.filter (fun p => decide (p.monthly ≤ t)) = [] := by
      rw [List.filter_eq_nil_iff]
      intro a ha
      simpa using not_le.mpr (hall a ha)
    obtain ⟨b, heq, hbmem, hbmin⟩ := minByFirst_spec (fun p => p.monthly) _ hne
    refine ⟨b, ?_, hbmem, hbmin⟩
    simp only [choose_best_plan_for_budget]
    rw [hfe]
    simp only [maxByFirst]
    rw [heq]
    rfl

/-- Witness for C2 at a concrete plan list and budget. -/
theorem choose_best_plan_for_budget_correct_witness :
    (∃ best, choose_best_plan_for_budget
        [⟨"A", 3, 100, 900⟩, ⟨"B", 12, 60, 1314⟩] 70 = some (best, "within") ∧
      best ∈ [Plan.mk "A" 3 100 900, Plan.mk "B" 12 60 1314] ∧
      best.monthly ≤ 70 ∧
      ∀ q ∈ [Plan.mk "A" 3 100 900, Plan.mk "B" 12 60 1314],
        q.monthly ≤ 70 → q.monthly ≤ best.monthly) :=
  (choose_best_plan_for_budget_correct
      [⟨"A", 3, 100, 900⟩, ⟨"B", 12, 60, 1314⟩] 70 (by simp)).1
    ⟨⟨"B", 12, 60, 1314⟩, by simp, by norm_num⟩

/-! ### C3: discount matcher -/

lemma discLe_refl (t : ℚ) (p : Plan) : discLe t p p = true := by
  simp [discLe]

lemma discLe_total (t : ℚ) (p q : Plan) : discLe t p q || discLe t q p := by
  simp only [discLe, Bool.or_eq_true, Bool.and_eq_true, decide_eq_true_eq]
  rcases Nat.lt_trichotomy p.months q.months with h | h | h
  · exact Or.inl (Or.inl h)
  · rcases le_total |p.monthly - t| |q.monthly - t| with hle | hle
    · exact Or.inl (Or.inr ⟨h, hle⟩)
    · exact Or.inr (Or.inr ⟨h.symm, hle⟩)
  · exact Or.inr (Or.inl h)

lemma discLe_trans (t : ℚ) (a b c : Plan) :
    discLe t a b → discLe t b c → discLe t a c := by
  simp only [discLe, Bool.or_eq_true, Bool.and_eq_true, decide_eq_true_eq]
  rintro (h1 | ⟨h1, h1d⟩) (h2 | ⟨h2, h2d⟩)
  · exact Or.inl (h1.trans h2)
  · exact Or.inl (h2 ▸ h1)
  · exact Or.inl (h1 ▸ h2)
  · exact Or.inr ⟨h1.trans h2, le_trans h1d h2d⟩

lemma discLe_iff (t : ℚ) (p q : Plan) :
    discLe t p q = true ↔
      (p.months < q.months ∨
        (p.months = q.months ∧ |p.monthly - t| ≤ |q.monthly - t|)) := by
  simp [discLe]

/-- C3: for every plan list, target and tolerance, if some plan's monthly
lies in the tolerance band then `choose_discount_plan_to_match_price`
returns, with flag `true`, a candidate in the band that is minimal for the
two-key order (shortest term, ties broken by smallest absolute distance of
its monthly to the target); if no plan lies in the band it returns, with
flag `false`, a plan whose absolute distance to the target is globally
minimal. -/
theorem choose_discount_plan_to_match_price_correct (plans : List Plan)
    (t tol : ℚ) (hne : plans ≠ []) :
    ((∃ p ∈ plans, t - tol ≤ p.monthly ∧ p.monthly ≤ t + tol) →
      ∃ c, choose_discount_plan_to_match_price plans t tol = some (c, true) ∧
        c ∈ plans ∧ t - tol ≤ c.monthly ∧ c.monthly ≤ t + tol ∧
        ∀ q ∈ plans, t - tol ≤ q.monthly → q.monthly ≤ t + tol →
          c.months < q.months ∨
            (c.months = q.months ∧ |c.monthly - t| ≤ |q.monthly - t|)) ∧
    ((∀ p ∈ plans, p.monthly < t - tol ∨ t + tol < p.monthly) →
      ∃ n, choose_discount_plan_to_match_price plans t tol = some (n, false) ∧
        n ∈ plans ∧ ∀ q ∈ plans, |n.monthly - t| ≤ |q.monthly - t|) := by
  constructor
  · rintro ⟨p, hp, hlo, hhi⟩
    have hpf : p ∈ plans.filter
        (fun p => decide (t - tol ≤ p.monthly) && decide (p.monthly ≤ t + tol)) :=
      List.mem_filter.mpr ⟨hp, by simp [hlo, hhi]⟩
    obtain ⟨c0, cs0, hc⟩ := List.exists_cons_of_ne_nil (List.ne_nil_of_mem hpf)
    have hmsne : (c0 :: cs0).mergeSort (discLe t) ≠ [] := by
      intro h
      have := congrArg List.length h
      simp at this
    obtain ⟨s, rest, hs⟩ := List.exists_cons_of_ne_nil hmsne
    have hs1 : s ∈ (c0 :: cs0).mergeSort (discLe t) := by
      rw [hs]
      exact List.mem_cons_self _ _
    have hsmem : s ∈ plans.filter
        (fun p => decide (t - tol ≤ p.monthly) && decide (p.monthly ≤ t + tol)) := by
      rw [hc]
      exact List.mem_mergeSort.mp hs1
    have hsorted :=
      List.sorted_mergeSort
        (fun a b c => discLe_trans t a b c) (fun a b => discLe_total t a b)
        (c0 :: cs0)
    rw [hs] at hsorted
    have hpair : ∀ q ∈ rest, discLe t s q := (List.pairwise_cons.mp hsorted).1
    have hband := (List.mem_filter.mp hsmem).2
    simp only [Bool.and_eq_true, decide_eq_true_eq] at hband
    refine ⟨s, ?_, (List.mem_filter.mp hsmem).1, hband.1, hband.2, ?_⟩
    · simp only [choose_discount_plan_to_match_price]
      rw [hc]
      simp only []
      rw [hs]
    · intro q hq hqlo hqhi
      have hqf : q ∈ plans.filter
          (fun p => decide (t - tol ≤ p.monthly) && decide (p.monthly ≤ t + tol)) :=
        List.mem_filter.mpr ⟨hq, by simp [hqlo, hqhi]⟩
      rw [hc] at hqf
      have hqms : q ∈ (c0 :: cs0).mergeSort (discLe t) := List.mem_mergeSort.mpr hqf
      rw [hs] at hqms
      rcases List.mem_cons.mp hqms with h1 | h1
      · rw [h1]
        exact (discLe_iff t s s).mp (discLe_refl t s)
      · exact (discLe_iff t s q).mp (hpair q h1)
  · intro hall
    have hfe : plans.filter
        (fun p => decide (t - tol ≤ p.monthly) && decide (p.monthly ≤ t + tol)) = [] := by
      rw [List.filter_eq_nil_iff]
      intro a ha
      simp only [Bool.and_eq_true, decide_eq_true_eq, not_and]
      intro h1
      rcases hall a ha with h | h
      · exact absurd h1 (not_le.mpr h)
      · exact not_le.mpr h
    obtain ⟨n, heq, hnmem, hnmin⟩ :=
      minByFirst_spec (fun p => |p.monthly - t|) plans hne
    refine ⟨n, ?_, hnmem, hnmin⟩
    simp only [choose_discount_plan_to_match_price]
    rw [hfe]
    simp only []
    rw [heq]
    rfl

/-- Witness for C3 at a concrete plan list, target and tolerance. -/
theorem choose_discount_plan_to_match_price_correct_witness :
    ∃ c, choose_discount_plan_to_match_price
        [⟨"A", 3, 100, 900⟩, ⟨"B", 12, 60, 1314⟩] 65 10 = some (c, true) ∧
      c ∈ [Plan.mk "A" 3 100 900, Plan.mk "B" 12 60 1314] ∧
      (65 : ℚ) - 10 ≤ c.monthly ∧ c.monthly ≤ 65 + 10 ∧
      ∀ q ∈ [Plan.mk "A" 3 100 900, Plan.mk "B" 12 60 1314],
        (65 : ℚ) - 10 ≤ q.monthly → q.monthly ≤ 65 + 10 →
          c.months < q.months ∨
            (c.months = q.months ∧ |c.monthly - 65| ≤ |q.monthly - 65|) :=
  (choose_discount_plan_to_match_price_correct
      [⟨"A", 3, 100, 900⟩, ⟨"B", 12, 60, 1314⟩] 65 10 (by simp)).1
    ⟨⟨"B", 12, 60, 1314⟩, by simp, by norm_num, by norm_num⟩

/-! ### C5, C7, C9, C10: plan-generator facts -/

/-- C5: for every financed amount ≥ 0, every plan produced by
`compute_plans` satisfies `monthly = financed / term + 49` and
`total = monthly * term + 594`. -/
theorem compute_plans_invariant (fa : ℚ) (hfa : 0 ≤ fa) :
    ∀ p ∈ compute_plans fa,
      p.monthly = fa / (p.months : ℚ) + 49 ∧
      p.total = p.monthly * (p.months : ℚ) + 594 := by
  intro p hp
  simp only [compute_plans, PAYMENT_OPTIONS, List.map_cons, List.map_nil,
    List.mem_cons, List.not_mem_nil, or_false] at hp
  rcases hp with h | h | h | h | h | h | h <;> subst h <;>
    exact ⟨by norm_num [ADMIN_MONTHLY], by norm_num [START_FEE]⟩

/-- Witness for C5 at financed amount 36990 and the 12-month plan. -/
theorem compute_plans_invariant_witness :
    (Plan.mk "12 månader" 12 3131.5 38172).monthly =
        36990 / ((Plan.mk "12 månader" 12 3131.5 38172).months : ℚ) + 49 ∧
    (Plan.mk "12 månader" 12 3131.5 38172).total =
        (Plan.mk "12 månader" 12 3131.5 38172).monthly *
          ((Plan.mk "12 månader" 12 3131.5 38172).months : ℚ) + 594 :=
  compute_plans_invariant 36990 (by norm_num) _
    (by
      simp only [compute_plans, PAYMENT_OPTIONS, List.map_cons, List.map_nil,
        List.mem_cons]
      refine Or.inr (Or.inl ?_)
      simp only [Plan.mk.injEq]
      norm_num [ADMIN_MONTHLY, START_FEE])

/-- C7: for financed amount 36990 and the 12-month term, the generated plan
has monthly `36990/12 + 49 = 3131.50` and total `3131.50 × 12 + 594 = 38172`. -/
theorem compute_plans_example_36990 :
    ∃ p ∈ compute_plans 36990, p.label = "12 månader" ∧ p.months = 12 ∧
      p.monthly = 36990 / 12 + 49 ∧ p.monthly = 3131.5 ∧
      p.total = 3131.5 * 12 + 594 ∧ p.total = 38172 := by
  simp only [compute_plans, PAYMENT_OPTIONS, List.map_cons, List.map_nil]
  refine ⟨_, List.mem_cons.mpr (Or.inr (List.mem_cons.mpr (Or.inl rfl))),
    rfl, rfl, ?_, ?_, ?_, ?_⟩ <;> norm_num [ADMIN_MONTHLY, START_FEE]

/-- C9: every term in the static option list is strictly positive, and hence
every plan produced by `compute_plans` has a strictly positive month count:
no division in the plan engine is by zero. -/
theorem payment_terms_positive :
    (∀ lm ∈ PAYMENT_OPTIONS, 0 < lm.2) ∧
    ∀ fa : ℚ, ∀ p ∈ compute_plans fa, 0 < p.months := by
  refine ⟨by decide, ?_⟩
  intro fa p hp
  simp only [compute_plans, PAYMENT_OPTIONS, List.map_cons, List.map_nil,
    List.mem_cons, List.not_mem_nil, or_false] at hp
  rcases hp with h | h | h | h | h | h | h <;> subst h <;> norm_num

/-- Witness for C9 at financed amount 0 and the 3-month plan. -/
theorem payment_terms_positive_witness :
    0 < (Plan.mk "90 dagar (3 mån)" 3 (49 : ℚ) 741).months :=
  payment_terms_positive.2 0 _
    (by
      simp only [compute_plans, PAYMENT_OPTIONS, List.map_cons, List.map_nil,
        List.mem_cons]
      refine Or.inl ?_
      simp only [Plan.mk.injEq]
      norm_num [ADMIN_MONTHLY, START_FEE])

/-- C10: `compute_plans` returns one plan per payment option, in order, and
its monthly payments are non-increasing along the list when the financed
amount is ≥ 0, strictly decreasing when it is > 0 (so the 3-month plan has
the highest and the 120-month plan the lowest monthly payment). -/
theorem compute_plans_shape (fa : ℚ) :
    (compute_plans fa).map (fun p => (p.label, p.months)) = PAYMENT_OPTIONS ∧
    (0 ≤ fa → (compute_plans fa).Chain' (fun p q => q.monthly ≤ p.monthly)) ∧
    (0 < fa → (compute_plans fa).Chain' (fun p q => q.monthly < p.monthly)) := by
  refine ⟨by simp [compute_plans, PAYMENT_OPTIONS], ?_, ?_⟩
  · intro hfa
    simp only [compute_plans, PAYMENT_OPTIONS, List.map_cons, List.map_nil,
      List.chain'_cons, List.chain'_singleton, and_true]
    refine ⟨?_, ?_, ?_, ?_, ?_, ?_⟩ <;> · dsimp only; push_cast; linarith
  · intro hfa
    simp only [compute_plans, PAYMENT_OPTIONS, List.map_cons, List.map_nil,
      List.chain'_cons, List.chain'_singleton, and_true]
    refine ⟨?_, ?_, ?_, ?_, ?_, ?_⟩ <;> · dsimp only; push_cast; linarith

/-- Witness for C10 at financed amount 12. -/
theorem compute_plans_shape_witness :
    (compute_plans 12).map (fun p => (p.label, p.months)) = PAYMENT_OPTIONS ∧
    (compute_plans 12).Chain' (fun p q => q.monthly ≤ p.monthly) ∧
    (compute_plans 12).Chain' (fun p q => q.monthly < p.monthly) :=
  ⟨(compute_plans_shape 12).1, (compute_plans_shape 12).2.1 (by norm_num),
    (compute_plans_shape 12).2.2 (by norm_num)⟩

/-! ### C6: bonus table -/

/-- C6: the monthly bonus table, with every threshold inclusive: 9 → 0,
10 → 5000, 49 → 40000, 50 → 50000, and the remaining thresholds 15, 20, 30,
40 map to their tiers. -/
theorem bonus_for_net_sales_table :
    bonus_for_net_sales 9 = 0 ∧ bonus_for_net_sales 10 = 5000 ∧
    bonus_for_net_sales 49 = 40000 ∧ bonus_for_net_sales 50 = 50000 ∧
    bonus_for_net_sales 15 = 10000 ∧ bonus_for_net_sales 20 = 15000 ∧
    bonus_for_net_sales 30 = 30000 ∧ bonus_for_net_sales 40 = 40000 := by
  decide

/-! ### C8: discounted financed amount never exceeds the standard one -/

/-- C8: for all extras counts and charged/comped flag combinations, the
discount offer's financed amount is at most the standard offer's. -/
theorem financed_discount_le_financed_full (i : Inputs) :
    financed_discount i ≤ financed_full i := by
  have h1 : (if charged_magnet i then (i.magnet_count : ℚ) * EXTRA_MAGNET else 0)
      ≤ (i.magnet_count : ℚ) * EXTRA_MAGNET := by
    split
    · exact le_refl _
    · exact mul_nonneg (Nat.cast_nonneg _) (by norm_num [EXTRA_MAGNET])
  have h2 : (if charged_camera i then (i.camera_count : ℚ) * EXTRA_CAMERA else 0)
      ≤ (i.camera_count : ℚ) * EXTRA_CAMERA := by
    split
    · exact le_refl _
    · exact mul_nonneg (Nat.cast_nonneg _) (by norm_num [EXTRA_CAMERA])
  have h3 : (if charged_fire i then (i.fire_count : ℚ) * EXTRA_FIRE else 0)
      ≤ (i.fire_count : ℚ) * EXTRA_FIRE := by
    split
    · exact le_refl _
    · exact mul_nonneg (Nat.cast_nonneg _) (by norm_num [EXTRA_FIRE])
  have h : extras_charged_final i ≤ extras_total_full i := by
    unfold extras_charged_final extras_total_full
    exact add_le_add (add_le_add h1 h2) h3
  unfold financed_discount financed_full
  linarith

/-! ### C4: commission formula and travel reimbursement -/

/-- C4: the total compensation equals
`(2500 + 0.10 × billed extras + 0.20 × 5000)`, multiplied by `0.8` exactly
when the penalty condition holds, plus `miles × 25.50` added after the
penalty; the travel reimbursement component is the same whether or not the
penalty applies. -/
theorem total_compensation_formula (i : Inputs) :
    total_with_mileage i =
      (if has_comp i then
          (2500 + 0.10 * extras_charged_final i + 0.20 * 5000) * 0.8
        else 2500 + 0.10 * extras_charged_final i + 0.20 * 5000)
        + i.miles_driven * 25.50 ∧
    total_with_mileage i - total_after_comp i = i.miles_driven * 25.50 := by
  constructor
  · simp only [total_with_mileage, total_after_comp, total_before_comp,
      base_comm, upsell_comm, install_comm, mile_comp_total,
      BASE_COMMISSION_PER_DEAL, UPSELL_COMMISSION_RATE,
      INSTALL_COMMISSION_RATE, INSTALLATION_COST, COMPENSATION_PENALTY_RATE,
      MILE_COMP]
    by_cases h : has_comp i <;> simp only [h, if_true, if_false] <;> ring_nf
  · simp only [total_with_mileage, mile_comp_total, MILE_COMP]
    ring

/-! ### C1: when the 20% penalty fires -/

lemma compute_plans_ne_nil (fa : ℚ) : compute_plans fa ≠ [] := by
  simp [compute_plans, PAYMENT_OPTIONS]

lemma choose_discount_isSome (plans : List Plan) (t tol : ℚ)
    (h : plans ≠ []) :
    (choose_discount_plan_to_match_price plans t tol).isSome := by
  simp only [choose_discount_plan_to_match_price]
  split
  · obtain ⟨n, heq, -, -⟩ := minByFirst_spec (fun p => |p.monthly - t|) plans h
    rw [heq]
    rfl
  · split
    · rename_i c cs hms
      exact absurd (congrArg List.length hms) (by simp)
    · rfl

lemma discount_plan_isSome_iff (i : Inputs) :
    (discount_plan i).isSome = discount_branch i := by
  unfold discount_plan
  by_cases h : discount_branch i
  · simp only [h, if_true]
    obtain ⟨x, hx⟩ := Option.isSome_iff_exists.mp
      (choose_discount_isSome (compute_plans (financed_discount i))
        i.desired_monthly i.tolerance (compute_plans_ne_nil _))
    rw [hx]
    rfl
  · simp [h]

/-- C1 counterexample: with one billed magnet and no cameras or fire alarms,
every extra with a positive count is billed, yet `has_comp` holds (the
discount branch fires because the charged flags of the zero-count extras are
false), so the commission before travel reimbursement is penalized and does
not equal the unpenalized sum. -/
theorem penalty_without_comped_extra :
    allPositiveExtrasBilled ⟨1, 0, 0, false, false, false, true, 800, 50, 0⟩ ∧
    total_after_comp ⟨1, 0, 0, false, false, false, true, 800, 50, 0⟩ ≠
      2500 + 0.10 *
          extras_charged_final ⟨1, 0, 0, false, false, false, true, 800, 50, 0⟩
        + 0.20 * 5000 := by
  constructor
  · exact ⟨fun _ => by decide, fun h => absurd h (by decide),
      fun h => absurd h (by decide)⟩
  · have hcomp : has_comp ⟨1, 0, 0, false, false, false, true, 800, 50, 0⟩
        = true := by
      simp only [has_comp]
      rw [discount_plan_isSome_iff]
      decide
    simp only [total_after_comp, hcomp, if_true, total_before_comp, base_comm,
      upsell_comm, install_comm, extras_charged_final,
      BASE_COMMISSION_PER_DEAL, UPSELL_COMMISSION_RATE,
      INSTALL_COMMISSION_RATE, INSTALLATION_COST, COMPENSATION_PENALTY_RATE,
      EXTRA_MAGNET, EXTRA_CAMERA, EXTRA_FIRE]
    norm_num [charged_magnet, charged_camera, charged_fire]

/-- C1 (amended): the 20% penalty is applied iff some selected extra is
comped or a discount plan was produced; and for every input where every
positive-count extra is billed and no discount plan is produced, the
commission before travel reimbursement equals the unpenalized sum
`2500 + 10% of billed extras + 20% of installation`. -/
theorem penalty_iff_comp_or_discount (i : Inputs) :
    (has_comp i = true ↔ (someExtraComped i ∨ (discount_plan i).isSome = true)) ∧
    (allPositiveExtrasBilled i → discount_plan i = none →
      total_after_comp i =
        2500 + 0.10 * extras_charged_final i + 0.20 * 5000) := by
  constructor
  · simp only [has_comp, someExtraComped, Bool.or_eq_true, Bool.and_eq_true,
      decide_eq_true_eq, Bool.not_eq_true']
    tauto
  · intro hall hnone
    have h1 : (decide (0 < i.magnet_count) && !charged_magnet i) = false := by
      by_cases h : 0 < i.magnet_count
      · simp [h, hall.1 h]
      · simp [h]
    have h2 : (decide (0 < i.camera_count) && !charged_camera i) = false := by
      by_cases h : 0 < i.camera_count
      · simp [h, hall.2.1 h]
      · simp [h]
    have h3 : (decide (0 < i.fire_count) && !charged_fire i) = false := by
      by_cases h : 0 < i.fire_count
      · simp [h, hall.2.2 h]
      · simp [h]
    have hcomp : has_comp i = false := by
      simp only [has_comp, h1, h2, h3, hnone, Bool.or_self, Bool.or_false]
      rfl
    simp only [total_after_comp, hcomp, Bool.false_eq_true, if_false,
      total_before_comp, base_comm, upsell_comm, install_comm,
      BASE_COMMISSION_PER_DEAL, UPSELL_COMMISSION_RATE,
      INSTALL_COMMISSION_RATE, INSTALLATION_COST]
    ring_nf

/-- Witness for the amended C1 at an input where all three extras are
selected and billed, so no discount branch fires and no penalty applies. -/
theorem penalty_iff_comp_or_discount_witness :
    total_after_comp ⟨1, 1, 1, false, false, false, true, 800, 50, 0⟩ =
      2500 + 0.10 *
          extras_charged_final ⟨1, 1, 1, false, false, false, true, 800, 50, 0⟩
        + 0.20 * 5000 :=
  (penalty_iff_comp_or_discount ⟨1, 1, 1, false, false, false, true, 800, 50, 0⟩).2
    (by exact ⟨fun _ => by decide, fun _ => by decide, fun _ => by decide⟩)
    (by simp [discount_plan,
      show discount_branch ⟨1, 1, 1, false, false, false, true, 800, 50, 0⟩
          = false from by decide])

end AlarmSales
